import Mathlib

/-!
Verification development for the uSync patch-propagation and landing engine
(`src/lib/USync.js`, `src/lib/git.js`).

The engine composes external git primitives; the shallow embedding below
models those primitives through explicit environment records (`ImportEnv`,
`LandEnv`) whose fields give the outcome of each fallible git invocation
(diff text, apply success, push success, log output, working-copy
cleanliness).  The control flow of `USync.import` and `USync.land` is
translated statement by statement from the source, including the early
`return` statements inside the apply loops, the two-phase
apply-then-commit protocol of `land`, the per-repo push-failure
collection, the fallback-branch recovery, and the `try`/`finally` cleanup
placement.  JavaScript-specific behaviour that the source relies on is
modelled explicitly: `typeof null === 'object'` for `validateConfig`,
truthiness checks on strings (an empty diff or an empty trailer string is
falsy), member access on `null` raising a `TypeError`, and `git log`
printing commits newest-first (so `commits[0]` is the most recent commit
of the range, not the earliest).
-/

/-- A git commit as observed through `git log` with the schemas used by the
engine (`%an`, `%ae`, `%B`). -/
structure Commit where
  authorName : String
  authorEmail : String
  message : String
  deriving DecidableEq, Repr

/-- The `"Name <email>"` identity string of a commit's author, as produced
by the `'%an <%ae>'` log format in `USync.js` and by
`` `${commit.authorName} <${commit.authorEmail}>` `` in `git.js`. -/
def Commit.author (c : Commit) : String :=
  c.authorName ++ " <" ++ c.authorEmail ++ ">"

/-- Errors raised by the engine.  `configError`, `mappingError` and
`pushFallbackError` model the user-facing `USyncError`s thrown in
`USync.js`; `applyError` models a rethrown `git apply` failure;
`typeError` models a raw JavaScript `TypeError` (member access on `null`
or on `undefined`); `gitError` models any other failing git primitive. -/
inductive JsError
  | configError
  | mappingError
  | applyError (repoName : String)
  | pushFallbackError (failedRepos : List String)
  | typeError
  | gitError (message : String)
  deriving DecidableEq, Repr

/-- The value of the `mapping` field of a parsed `.usyncrc.json`.
`undef` models an absent field (`typeof undefined = 'undefined'`),
`null` models the JSON literal `null` (`typeof null = 'object'`), and
`obj` models a JSON object: an ordered association of repo names to
ordered `(parentPath, childPath)` pairs, mirroring JavaScript object
key order. -/
inductive MappingField
  | undef
  | null
  | obj (entries : List (String × List (String × String)))
  deriving DecidableEq, Repr

/-- JavaScript `typeof` of the `mapping` field. -/
def jsTypeof : MappingField → String
  | .undef => "undefined"
  | .null => "object"
  | .obj _ => "object"

/-- Association lookup mirroring JavaScript property access `o[key]`
(`undefined`, i.e. `none`, when the key is absent). -/
def objLookup (key : String) : List (String × α) → Option α
  | [] => none
  | (k, v) :: rest => if k = key then some v else objLookup key rest

/-- Association update mirroring JavaScript property assignment
`o[key] = value`: an existing key keeps its position and gets the new
value, a new key is appended. -/
def objInsert (key : String) (value : α) : List (String × α) → List (String × α)
  | [] => [(key, value)]
  | (k, v) :: rest =>
    if k = key then (key, value) :: rest else (k, v) :: objInsert key value rest

/-- Model of `USync.validateConfig` (USync.js lines 50-56): throws a `USyncError`
iff the config is falsy or `typeof config.mapping !== 'object'`.  The
argument is `none` when `_getConfig` returned `undefined` (missing or
unparseable file). -/
def validateConfig : Option MappingField → Except JsError Unit
  | none => .error .configError
  | some mf => if jsTypeof mf = "object" then .ok () else .error .configError

/-- Whether the first character list leads the second (structural helper
for the string operations below). -/
def leadsWith : List Char → List Char → Bool
  | [], _ => true
  | _ :: _, [] => false
  | p :: ps, c :: cs => p == c && leadsWith ps cs

/-- JavaScript `s.startsWith(pre)`. -/
def jsStartsWith (s pre : String) : Bool :=
  leadsWith pre.data s.data

/-- JavaScript `s.endsWith(suf)`. -/
def jsEndsWith (s suf : String) : Bool :=
  leadsWith suf.data.reverse s.data.reverse

/-- JavaScript `s.slice(n)`. -/
def jsDrop (s : String) (n : Nat) : String :=
  String.mk (s.data.drop n)

/-- JavaScript `s.slice(0, -n)`. -/
def jsDropRight (s : String) (n : Nat) : String :=
  String.mk (s.data.take (s.data.length - n))

/-- Splitting a character list on a separator character (structural
helper for `jsSplit`). -/
def splitOnChar (sep : Char) : List Char → List (List Char)
  | [] => [[]]
  | c :: cs =>
    if c == sep then [] :: splitOnChar sep cs
    else
      match splitOnChar sep cs with
      | [] => [[c]]
      | g :: gs => (c :: g) :: gs

/-- JavaScript `s.split(sep)` for a one-character separator. -/
def jsSplit (s : String) (sep : Char) : List String :=
  (splitOnChar sep s.data).map String.mk

/-- One leading and one trailing slash removed, as by
`p.replace(/^\/|\/$/g, '')` in `_getConfig`. -/
def stripSlashes (p : String) : String :=
  let p1 := if jsStartsWith p "/" then jsDrop p 1 else p
  if jsEndsWith p1 "/" then jsDropRight p1 1 else p1

/-- The normalization of one repo's mapping object performed by
`_getConfig`: entries are rebuilt in order into a fresh object with
slash-stripped keys and values. -/
def normalizeMappingObj (m : List (String × String)) : List (String × String) :=
  m.foldl (fun acc e => objInsert (stripSlashes e.1) (stripSlashes e.2) acc) []

/-- The normalization loop of `_getConfig` (USync.js lines 72-85): runs
only when the config and its `mapping` field are truthy. -/
def normalizeConfig : Option MappingField → Option MappingField
  | some (.obj es) => some (.obj (es.map (fun p => (p.1, normalizeMappingObj p.2))))
  | c => c

/-- The `Co-authored-by:` trailer identities of one commit message, as
collected by `Git.getLogAuthors` (git.js lines 170-174): every line that
starts with `"Co-authored-by: "`, with the first 16 characters sliced
off. -/
def coAuthorLines (message : String) : List String :=
  (jsSplit message '\n').filterMap (fun line =>
    if jsStartsWith line "Co-authored-by: " then some (jsDrop line 16) else none)

/-- JavaScript `Set.add`: appends the element iff it is not already
present, preserving first-insertion order. -/
def setAdd (xs : List String) (x : String) : List String :=
  if x ∈ xs then xs else xs ++ [x]

/-- The author-collection fold of `Git.getLogAuthors` (git.js lines
167-177): each commit contributes its author identity and every
`Co-authored-by:` trailer of its message to a `Set`. -/
def collectAuthors (commits : List Commit) : List String :=
  commits.foldl (fun s c => (coAuthorLines c.message).foldl setAdd (setAdd s c.author)) []

/-- Lexicographic order on character lists by code point (structural
helper for `localeLe`). -/
def charListLe : List Char → List Char → Bool
  | [], _ => true
  | _ :: _, [] => false
  | a :: as, b :: bs =>
    if a.toNat = b.toNat then charListLe as bs
    else decide (a.toNat < b.toNat)

/-- The comparator of `.sort((a, b) => a.localeCompare(b))` in
`Git.getLogAuthors`, modelled as the lexicographic code-point order. -/
def localeLe (a b : String) : Bool :=
  charListLe a.data b.data

/-- Model of `Git.getLogAuthors` (git.js lines 161-180): the deduplicated author
set of the given log output, sorted by the identity string
(`.sort((a, b) => a.localeCompare(b))`). -/
def getLogAuthors (commits : List Commit) : List String :=
  List.insertionSort (fun a b => localeLe a b = true) (collectAuthors commits)

/-- Model of `Array.prototype.join` with a newline separator on a list of
trailer lines. -/
def joinLines : List String → String
  | [] => ""
  | [x] => x
  | x :: y :: rest => x ++ "\n" ++ joinLines (y :: rest)

/-- The trailer filter used by both `import` (USync.js lines 158-159) and
`land` (lines 338-341): every collected author except the chosen squash
commit author and the operator's global git identity. -/
def trailerFilter (authors : List String) (commitAuthor globalUser : String) : List String :=
  authors.filter (fun a => a != commitAuthor && a != globalUser)

/-- The commit-message construction of `import` (USync.js lines 155-164)
and `land` (lines 333-346): one `Co-authored-by:` line per retained
author, joined with newlines; if the joined trailer string is falsy
(empty) the base message is returned unchanged, otherwise the trailers
follow the base message after a blank line. -/
def buildMessage (base : String) (authors : List String) (commitAuthor globalUser : String) : String :=
  let trailers :=
    joinLines ((trailerFilter authors commitAuthor globalUser).map
      (fun a => "Co-authored-by: " ++ a))
  if trailers = "" then base else base ++ "\n\n" ++ trailers

instance [DecidableEq ε] [DecidableEq α] : DecidableEq (Except ε α) := fun x y =>
  match x, y with
  | .error a, .error b =>
    if h : a = b then .isTrue (by rw [h]) else .isFalse (by simp [h])
  | .error _, .ok _ => .isFalse (by simp)
  | .ok _, .error _ => .isFalse (by simp)
  | .ok a, .ok b =>
    if h : a = b then .isTrue (by rw [h]) else .isFalse (by simp [h])

/-- Arguments of `usync.import(opts)` (USync.js lines 93-106). -/
structure ImportOpts where
  baseRepoName : String
  headRepoName : Option String
  headBranch : String
  message : String
  newBranch : String
  deriving DecidableEq, Repr

/-- Outcomes of the external git primitives as observed by one `import`
call.  `config` is the parsed `.usyncrc.json` at the hub's HEAD (`none`
when missing or unparseable); `logCommits` gives the commits unique to
the fetched head branch (`HEAD...remote/headBranch --right-only`) for a
given path filter, in chronological order (earliest first); `diff` gives
the staged diff of the base repo restricted to the given path arguments
(`""` when empty); `applyOk` tells whether `git apply` with the given
arguments succeeds on the given patch in the hub working copy;
`globalUser` is the operator's global git identity. -/
structure ImportEnv where
  config : Option MappingField
  logCommits : List String → List Commit
  diff : List String → String
  applyOk : List String → String → Bool
  globalUser : String

/-- Side effects of one `import` call. -/
structure ImportTrace where
  forkRemoteAdded : Bool
  forkRemoteRemoved : Bool
  commit : Option (String × String)
  pushedBranch : Bool
  deriving DecidableEq, Repr

/-- Result and side effects of one `import` call. -/
structure ImportOutput where
  result : Except JsError Unit
  trace : ImportTrace
  deriving DecidableEq, Repr

/-- The config-validation and mapping-selection prefix of `import`
(USync.js lines 109-119): `validateConfig` passes a `null` mapping
(`typeof null = 'object'`), after which `config.mapping[baseRepoName]`
raises a `TypeError`; a missing or empty mapping for `baseRepoName`
raises the user-facing `USyncError`. -/
def importMapping (config : Option MappingField) (baseRepoName : String) :
    Except JsError (List (String × String)) :=
  match config with
  | none => .error .configError
  | some .undef => .error .configError
  | some .null => .error .typeError
  | some (.obj es) =>
    match objLookup baseRepoName es with
    | none => .error .mappingError
    | some m => if m = [] then .error .mappingError else .ok m

/-- The `isFork` flag of the import operation (USync.js line 121): the head repo is supplied
and differs from the base repo. -/
def importIsFork (opts : ImportOpts) : Bool :=
  match opts.headRepoName with
  | some h => h != opts.baseRepoName
  | none => false

/-- The `configSubpaths` of the import operation (USync.js line 142): the truthy values
(child-side paths) of the mapping. -/
def importConfigSubpaths (mapping : List (String × String)) : List String :=
  (mapping.map Prod.snd).filter (fun p => p != "")

/-- The diff path argument for one mapping entry of `import` (USync.js
lines 169-173): the child path when truthy. -/
def importEntryDiffArgs (childPath : String) : List String :=
  if childPath != "" then [childPath] else []

/-- The `git apply` arguments for one mapping entry of `import` (USync.js
lines 170-180): a strip count derived from the child path's segment
count, and a target directory from the parent path. -/
def importEntryApplyArgs (parentPath childPath : String) : List String :=
  (if childPath != "" then
    ["-p" ++ toString (1 + (jsSplit childPath '/').length)] else []) ++
  (if parentPath != "" then ["--directory=" ++ parentPath] else [])

/-- How the per-entry apply loop of `import` terminated. -/
inductive ApplyLoopResult
  | completed
  | earlyReturn
  | failed
  deriving DecidableEq, Repr

/-- The mapping-entry loop of `import` (USync.js lines 168-197).  An
empty (falsy) diff for an entry executes `return`, which exits the whole
`import` function, not just the loop iteration; a failed `git apply` is
rethrown. -/
def importApplyLoop (env : ImportEnv) : List (String × String) → ApplyLoopResult
  | [] => .completed
  | (parentPath, childPath) :: rest =>
    if env.diff (importEntryDiffArgs childPath) = "" then .earlyReturn
    else if env.applyOk (importEntryApplyArgs parentPath childPath)
        (env.diff (importEntryDiffArgs childPath)) then
      importApplyLoop env rest
    else .failed

/-- Model of `USync.import` (USync.js lines 103-228).  The hub refresh, branch
fetch, squash merge, branch creation, commit, push and cleanup git calls
are modelled as succeeding; the fallible behaviour under test (config
shape, empty log, empty diffs, apply failures) is taken from `env`.
`git log` prints commits newest-first, so the head of the reversed
chronological list is the most recent commit of the range; `import`
dereferences `commits[0].author` on it, a `TypeError` when the list is
empty.  Cleanup (including fork-remote removal) runs only when the whole
body of the operation completes. -/
def importRun (env : ImportEnv) (parentRepoName : String) (opts : ImportOpts) : ImportOutput :=
  match importMapping (normalizeConfig env.config) opts.baseRepoName with
  | .error e =>
    { result := .error e,
      trace := { forkRemoteAdded := false, forkRemoteRemoved := false,
                 commit := none, pushedBranch := false } }
  | .ok mapping =>
    match (env.logCommits (importConfigSubpaths mapping)).reverse with
    | [] =>
      { result := .error .typeError,
        trace := { forkRemoteAdded := importIsFork opts, forkRemoteRemoved := false,
                   commit := none, pushedBranch := false } }
    | c :: rest =>
      match importApplyLoop env mapping with
      | .earlyReturn =>
        { result := .ok (),
          trace := { forkRemoteAdded := importIsFork opts, forkRemoteRemoved := false,
                     commit := none, pushedBranch := false } }
      | .failed =>
        { result := .error (.applyError parentRepoName),
          trace := { forkRemoteAdded := importIsFork opts, forkRemoteRemoved := false,
                     commit := none, pushedBranch := false } }
      | .completed =>
        { result := .ok (),
          trace := { forkRemoteAdded := importIsFork opts,
                     forkRemoteRemoved := importIsFork opts,
                     commit := some (Commit.author c,
                       buildMessage opts.message (getLogAuthors (c :: rest))
                         (Commit.author c) env.globalUser),
                     pushedBranch := true } }

/-- The per-repo commit messages of `usync.land(opts)`: the required
`generic` message plus optional per-repo overrides. -/
structure CommitMessages where
  generic : String
  perRepo : List (String × String)
  deriving DecidableEq, Repr

/-- Model of `commitMessages[repoName] || commitMessages.generic` (USync.js lines
336-337): a missing or falsy (empty) per-repo message falls back to the
generic one. -/
def CommitMessages.forRepo (m : CommitMessages) (repoName : String) : String :=
  match objLookup repoName m.perRepo with
  | some s => if s = "" then m.generic else s
  | none => m.generic

/-- Arguments of `usync.land(opts)` (USync.js lines 230-244). -/
structure LandOpts where
  commitMessages : CommitMessages
  fallbackBranch : String
  headBranch : String
  headRepoName : Option String
  deriving DecidableEq, Repr

/-- Outcomes of the external git primitives as observed by one `land`
call.  `config` is the parsed `.usyncrc.json` at the head of the
incoming branch; `fetchHeadOk` is the outcome of the prepare-phase
`fetch remoteName headBranch`; `logCommits` gives the commits unique to
the head branch (computed in the hub) for a given path filter, in
chronological order (earliest first); `diff` gives the staged hub diff
restricted to the given path arguments (`""` when empty); `applyOk`
tells whether `git apply` succeeds in the given repo; `workdirClean` is
the repo's `git status --porcelain` emptiness at the commit phase;
`pushOk` is the outcome of the plain `git push` to the default branch;
`fallbackPushOk` is the outcome of pushing the fallback branch;
`commitSha` is the `log -1 --format=%H` output after a repo's commit. -/
structure LandEnv where
  config : Option MappingField
  fetchHeadOk : Bool
  logCommits : List String → List Commit
  diff : List String → String
  applyOk : String → List String → String → Bool
  workdirClean : String → Bool
  pushOk : String → Bool
  fallbackPushOk : String → Bool
  commitSha : String → String
  globalUser : String

/-- Side effects of one `land` call: `commits` lists
`(repoName, author, message)` for every local commit made, `pushedMaster`
lists `(repoName, sha)` for every successful push to the default branch,
`fallbackPushed` lists `(repoName, branch)` for every fallback-branch
push. -/
structure LandTrace where
  forkRemoteAdded : Bool
  forkRemoteRemoved : Bool
  commits : List (String × String × String)
  pushedMaster : List (String × String)
  fallbackPushed : List (String × String)
  deriving DecidableEq, Repr

/-- Result and side effects of one `land` call. -/
structure LandOutput where
  result : Except JsError (List (String × String))
  trace : LandTrace
  deriving DecidableEq, Repr

/-- The `isFork` flag of the land operation (USync.js line 245). -/
def landIsFork (parentRepoName : String) (opts : LandOpts) : Bool :=
  match opts.headRepoName with
  | some h => h != parentRepoName
  | none => false

/-- Config validation and `Object.entries(config.mapping)` for `land`
(USync.js lines 260-261, 267): a falsy config or a non-object `mapping`
is the user-facing config error; a `null` mapping passes validation and
then `Object.entries(null)` raises a `TypeError`. -/
def landMappingEntries : Option MappingField →
    Except JsError (List (String × List (String × String)))
  | none => .error .configError
  | some .undef => .error .configError
  | some .null => .error .typeError
  | some (.obj es) => .ok es

/-- The diff path argument for one mapping entry of `land` (USync.js
lines 274-278): the parent path when truthy. -/
def landEntryDiffArgs (parentPath : String) : List String :=
  if parentPath != "" then [parentPath] else []

/-- The `git apply` arguments for one mapping entry of `land` (USync.js
lines 275-285): a strip count derived from the parent path's segment
count, and a target directory from the child path. -/
def landEntryApplyArgs (parentPath childPath : String) : List String :=
  (if parentPath != "" then
    ["-p" ++ toString (1 + (jsSplit parentPath '/').length)] else []) ++
  (if childPath != "" then ["--directory=" ++ childPath] else [])

/-- The mapping-entry loop of one repo's apply closure in `land`
(USync.js lines 273-302).  An empty (falsy) diff executes `return`,
which ends this repo's closure successfully (skipping its remaining
entries); a failed `git apply` is rethrown and rejects this repo's
closure. -/
def landApplyRepo (env : LandEnv) (repoName : String) :
    List (String × String) → Except JsError Unit
  | [] => .ok ()
  | (parentPath, childPath) :: rest =>
    if env.diff (landEntryDiffArgs parentPath) = "" then .ok ()
    else if env.applyOk repoName (landEntryApplyArgs parentPath childPath)
        (env.diff (landEntryDiffArgs parentPath)) then
      landApplyRepo env repoName rest
    else .error (.applyError repoName)

/-- The apply-all phase of `land` (USync.js lines 266-304): one closure
per mapped repo (repos with an empty mapping return immediately), joined
by `Promise.all`, which rejects if any closure rejects.  Dirty working
copies of repos whose apply already ran are left behind but no commit is
made anywhere in this phase. -/
def landApplyPhase (env : LandEnv) :
    List (String × List (String × String)) → Except JsError Unit
  | [] => .ok ()
  | (repoName, mapping) :: rest =>
    if mapping = [] then landApplyPhase env rest
    else
      match landApplyRepo env repoName mapping with
      | .error e => .error e
      | .ok _ => landApplyPhase env rest

/-- The `configSubpaths` of the commit phase of `land` (USync.js line 321):
the truthy keys (hub-side paths) of the mapping. -/
def landConfigSubpaths (mapping : List (String × String)) : List String :=
  (mapping.map Prod.fst).filter (fun p => p != "")

/-- How one repo's commit-and-push closure in `land` ended. -/
inductive RepoCommitOutcome
  | skipped
  | pushed (author message sha : String)
  | pushFailed (author message : String)
  deriving DecidableEq, Repr

/-- One repo's commit-and-push closure in `land` (USync.js lines
315-365): skip when the working copy is clean; otherwise derive the
squash author from `commits[0]` of the hub's `git log` output
(newest-first; a `TypeError` when the scoped range has no commits),
build the trailer-augmented message, commit, and attempt the push; a
push failure is caught and recorded, it does not reject the closure. -/
def landRepoCommit (env : LandEnv) (msgs : CommitMessages) (repoName : String)
    (mapping : List (String × String)) : Except JsError RepoCommitOutcome :=
  if env.workdirClean repoName then .ok .skipped
  else
    match (env.logCommits (landConfigSubpaths mapping)).reverse with
    | [] => .error .typeError
    | c :: rest =>
      if env.pushOk repoName then
        .ok (.pushed (Commit.author c)
          (buildMessage (msgs.forRepo repoName) (getLogAuthors (c :: rest))
            (Commit.author c) env.globalUser)
          (env.commitSha repoName))
      else
        .ok (.pushFailed (Commit.author c)
          (buildMessage (msgs.forRepo repoName) (getLogAuthors (c :: rest))
            (Commit.author c) env.globalUser))

/-- Accumulated observations of the commit-and-push phase: `landed` is
the `landedRepos` map, `failedPush` is `failedPushRepos`, `commits`
records every local commit made, and `firstError` is the rejection (if
any) that the phase's `Promise.all` surfaces.  Because `Promise.all`
does not cancel the other closures, the effects of non-failing repos are
kept even when some closure rejects. -/
structure CommitPhase where
  landed : List (String × String)
  failedPush : List String
  commits : List (String × String × String)
  firstError : Option JsError
  deriving DecidableEq, Repr

/-- The commit-and-push phase of `land` (USync.js lines 314-366), one
closure per entry of `config.mapping` (the hub's dummy entry included). -/
def landCommitPhase (env : LandEnv) (msgs : CommitMessages) :
    List (String × List (String × String)) → CommitPhase
  | [] => { landed := [], failedPush := [], commits := [], firstError := none }
  | (repoName, mapping) :: rest =>
    let cp := landCommitPhase env msgs rest
    match landRepoCommit env msgs repoName mapping with
    | .error e => { cp with firstError := some e }
    | .ok .skipped => cp
    | .ok (.pushed a msg sha) =>
      { cp with landed := (repoName, sha) :: cp.landed,
                commits := (repoName, a, msg) :: cp.commits }
    | .ok (.pushFailed a msg) =>
      { cp with failedPush := repoName :: cp.failedPush,
                commits := (repoName, a, msg) :: cp.commits }

/-- Model of the assignment at USync.js lines 308-310 adding the hub entry:
the dummy root-to-root entry added for the hub after the apply-all
phase, overwriting any configured entry under the hub's own name. -/
def landCommitEntries (parentRepoName : String)
    (es : List (String × List (String × String))) :
    List (String × List (String × String)) :=
  objInsert parentRepoName [("", "")] es

/-- The fallback-recovery phase (USync.js lines 368-376): each failed
repo gets `fallbackBranch` created and pushed; all pushes are attempted
(`Promise.all` does not cancel), and the repos whose fallback push
succeeded are recorded. -/
def landFallbackPushed (env : LandEnv) (opts : LandOpts) (repos : List String) :
    List (String × String) :=
  (repos.filter (fun r => env.fallbackPushOk r)).map (fun r => (r, opts.fallbackBranch))

/-- The first repo (if any) whose fallback push rejects, making the
fallback phase's `Promise.all` reject before the aggregate `USyncError`
is thrown. -/
def landFallbackError (env : LandEnv) (repos : List String) : Option String :=
  repos.find? (fun r => !env.fallbackPushOk r)

/-- Constructor shorthand for a `land` trace. -/
def mkLandTrace (added removed : Bool) (commits : List (String × String × String))
    (pushed : List (String × String)) (fallback : List (String × String)) : LandTrace :=
  { forkRemoteAdded := added, forkRemoteRemoved := removed,
    commits := commits, pushedMaster := pushed, fallbackPushed := fallback }

/-- Model of `USync.land` (USync.js lines 241-395).  The prepare block (refresh,
fork-remote addition, head-branch fetch) runs before the `try`, so a
failing head-branch fetch propagates without running the `finally`
cleanup; everything from config loading onward runs inside the `try`,
whose `finally` removes the temporary fork remote.  The squash merge,
`add --all`, `commit`, and sha queries are modelled as succeeding; the
fallible behaviour under test is taken from `env`. -/
def land (env : LandEnv) (parentRepoName : String) (opts : LandOpts) : LandOutput :=
  let isFork := landIsFork parentRepoName opts
  if env.fetchHeadOk then
    match landMappingEntries (normalizeConfig env.config) with
    | .error e => { result := .error e, trace := mkLandTrace isFork isFork [] [] [] }
    | .ok es =>
      match landApplyPhase env es with
      | .error e => { result := .error e, trace := mkLandTrace isFork isFork [] [] [] }
      | .ok _ =>
        let cp := landCommitPhase env opts.commitMessages (landCommitEntries parentRepoName es)
        match cp.firstError with
        | some e =>
          { result := .error e,
            trace := mkLandTrace isFork isFork cp.commits cp.landed [] }
        | none =>
          if cp.failedPush = [] then
            { result := .ok cp.landed,
              trace := mkLandTrace isFork isFork cp.commits cp.landed [] }
          else
            match landFallbackError env cp.failedPush with
            | some r =>
              { result := .error (.gitError ("failed to push fallback branch for " ++ r)),
                trace := mkLandTrace isFork isFork cp.commits cp.landed
                  (landFallbackPushed env opts cp.failedPush) }
            | none =>
              { result := .error (.pushFallbackError cp.failedPush),
                trace := mkLandTrace isFork isFork cp.commits cp.landed
                  (landFallbackPushed env opts cp.failedPush) }
  else
    { result := .error (.gitError "failed to fetch head branch"),
      trace := mkLandTrace isFork false [] [] [] }

theorem objLookup_objInsert_self (key : String) (v : α) (l : List (String × α)) :
    objLookup key (objInsert key v l) = some v := by
  induction l with
  | nil => simp [objInsert, objLookup]
  | cons p rest ih =>
    obtain ⟨k, w⟩ := p
    by_cases h : k = key
    · simp [objInsert, h, objLookup]
    · simp [objInsert, h, objLookup, ih]

theorem objLookup_objInsert_ne (key r : String) (hne : r ≠ key) (v : α)
    (l : List (String × α)) : objLookup r (objInsert key v l) = objLookup r l := by
  have hkr : ¬ key = r := fun hh => hne hh.symm
  induction l with
  | nil => simp [objInsert, objLookup, hkr]
  | cons p rest ih =>
    obtain ⟨k, w⟩ := p
    by_cases h : k = key
    · subst h
      simp [objInsert, objLookup, hkr]
    · simp [objInsert, h, objLookup, ih]

theorem mem_keys_objInsert (key : String) (v : α) (l : List (String × α)) :
    key ∈ (objInsert key v l).map Prod.fst := by
  induction l with
  | nil => simp [objInsert]
  | cons p rest ih =>
    obtain ⟨k, w⟩ := p
    by_cases h : k = key
    · simp [objInsert, h]
    · simp [objInsert, h, ih]

/-- C10: In every `land` call, after the apply-all phase the hub
repository itself is added to the set of repos processed by the
commit-and-push phase with the root-to-root scope mapping
`{'': ''}`, and this entry overwrites any mapping entry that the
configuration may declare under the hub's own repository name
(`landCommitEntries` is exactly the entry list the commit phase of
`land` receives). -/
theorem land_hub_dummy_mapping (parent : String)
    (es : List (String × List (String × String))) :
    objLookup parent (landCommitEntries parent es) = some [("", "")] ∧
    parent ∈ (landCommitEntries parent es).map Prod.fst ∧
    ∀ r, r ≠ parent → objLookup r (landCommitEntries parent es) = objLookup r es := by
  refine ⟨objLookup_objInsert_self parent _ es, mem_keys_objInsert parent _ es, ?_⟩
  intro r hr
  exact objLookup_objInsert_ne parent r hr _ es

theorem land_hub_dummy_mapping_witness :
    objLookup "org/hub"
      (landCommitEntries "org/hub" [("org/hub", [("conf", "sub")]), ("org/a", [("pa", "")])]) =
      some [("", "")] ∧
    "org/hub" ∈
      (landCommitEntries "org/hub"
        [("org/hub", [("conf", "sub")]), ("org/a", [("pa", "")])]).map Prod.fst ∧
    objLookup "org/a"
      (landCommitEntries "org/hub" [("org/hub", [("conf", "sub")]), ("org/a", [("pa", "")])]) =
      objLookup "org/a" [("org/hub", [("conf", "sub")]), ("org/a", [("pa", "")])] :=
  ⟨(land_hub_dummy_mapping "org/hub" [("org/hub", [("conf", "sub")]), ("org/a", [("pa", "")])]).1,
   (land_hub_dummy_mapping "org/hub" [("org/hub", [("conf", "sub")]), ("org/a", [("pa", "")])]).2.1,
   (land_hub_dummy_mapping "org/hub"
     [("org/hub", [("conf", "sub")]), ("org/a", [("pa", "")])]).2.2 "org/a" (by decide)⟩

/-- A `land` environment whose config has `{"mapping": null}`. -/
def nullConfigLandEnv : LandEnv :=
  { config := some .null, fetchHeadOk := true,
    logCommits := fun _ => [], diff := fun _ => "", applyOk := fun _ _ _ => true,
    workdirClean := fun _ => true, pushOk := fun _ => true,
    fallbackPushOk := fun _ => true, commitSha := fun _ => "",
    globalUser := "Op <op@example.com>" }

/-- Generic non-fork `land` options. -/
def genericLandOpts : LandOpts :=
  { commitMessages := { generic := "Land the change", perRepo := [] },
    fallbackBranch := "usync-fallback", headBranch := "feature",
    headRepoName := none }

/-- C8: `validateConfig` accepts a configuration whose `mapping` field is
the JSON literal `null` (because `typeof null === 'object'`); the
subsequent lookup into the mapping — `config.mapping[baseRepoName]` in
`import`, `Object.entries(config.mapping)` in `land` — then fails with a
raw `TypeError` rather than a user-facing `USyncError`. -/
theorem validateConfig_accepts_null_mapping (env : LandEnv) (parent : String)
    (opts : LandOpts) (hcfg : env.config = some MappingField.null)
    (hfetch : env.fetchHeadOk = true) :
    validateConfig (some MappingField.null) = .ok () ∧
    (∀ r : String, importMapping (some MappingField.null) r = .error .typeError) ∧
    (land env parent opts).result = .error .typeError := by
  refine ⟨rfl, fun r => rfl, ?_⟩
  unfold land
  rw [hfetch, hcfg]
  rfl

theorem validateConfig_accepts_null_mapping_witness :
    validateConfig (some MappingField.null) = .ok () ∧
    importMapping (some MappingField.null) "org/a" = .error .typeError ∧
    (land nullConfigLandEnv "org/hub" genericLandOpts).result = .error .typeError :=
  ⟨(validateConfig_accepts_null_mapping nullConfigLandEnv "org/hub" genericLandOpts rfl rfl).1,
   (validateConfig_accepts_null_mapping nullConfigLandEnv "org/hub" genericLandOpts rfl rfl).2.1 "org/a",
   (validateConfig_accepts_null_mapping nullConfigLandEnv "org/hub" genericLandOpts rfl rfl).2.2⟩

/-- C9: if the commit range unique to the head branch, restricted to the
mapped subpaths, contains no commits at all, then `import` — and, in the
same way, one repo's closure in `land`'s commit phase on a dirty working
copy — fails by dereferencing the first element of an empty commit list
(`commits[0].author`), surfacing a raw `TypeError` instead of completing
or raising a user-facing error. -/
theorem empty_scoped_log_raises_type_error (env : ImportEnv) (parent : String)
    (opts : ImportOpts) (mapping : List (String × String))
    (hmap : importMapping (normalizeConfig env.config) opts.baseRepoName = .ok mapping)
    (hlog : env.logCommits (importConfigSubpaths mapping) = []) :
    (importRun env parent opts).result = .error .typeError ∧
    (∀ (lenv : LandEnv) (msgs : CommitMessages) (r : String)
        (m : List (String × String)),
      lenv.workdirClean r = false → lenv.logCommits (landConfigSubpaths m) = [] →
      landRepoCommit lenv msgs r m = .error .typeError) := by
  constructor
  · unfold importRun
    simp only [hmap, hlog, List.reverse_nil]
  · intro lenv msgs r m hclean hl
    unfold landRepoCommit
    simp only [hclean, hl, List.reverse_nil, Bool.false_eq_true, if_false]

/-- An `import` environment whose scoped log range is empty: the config
maps only `proj` of the hub to the child's `sub` directory, and the
branch's unique commits touch no file under `sub`. -/
def emptyLogImportEnv : ImportEnv :=
  { config := some (.obj [("org/child", [("proj", "sub")])]),
    logCommits := fun _ => [],
    diff := fun _ => "",
    applyOk := fun _ _ => true,
    globalUser := "Op <op@example.com>" }

/-- Generic non-fork `import` options for `org/child`. -/
def childImportOpts : ImportOpts :=
  { baseRepoName := "org/child", headRepoName := none, headBranch := "feature",
    message := "Import the change", newBranch := "imports/feature" }

/-- A `land` environment with an empty log range and a dirty repo. -/
def emptyLogLandEnv : LandEnv :=
  { config := some (.obj [("org/a", [("pa", "")])]), fetchHeadOk := true,
    logCommits := fun _ => [], diff := fun _ => "patch",
    applyOk := fun _ _ _ => true, workdirClean := fun _ => false,
    pushOk := fun _ => true, fallbackPushOk := fun _ => true,
    commitSha := fun _ => "abc123", globalUser := "Op <op@example.com>" }

theorem empty_scoped_log_raises_type_error_witness :
    (importRun emptyLogImportEnv "org/hub" childImportOpts).result = .error .typeError ∧
    landRepoCommit emptyLogLandEnv { generic := "m", perRepo := [] } "org/a" [("pa", "")] =
      .error .typeError :=
  ⟨(empty_scoped_log_raises_type_error emptyLogImportEnv "org/hub" childImportOpts
      [("proj", "sub")] (by decide) rfl).1,
   (empty_scoped_log_raises_type_error emptyLogImportEnv "org/hub" childImportOpts
      [("proj", "sub")] (by decide) rfl).2 emptyLogLandEnv
      { generic := "m", perRepo := [] } "org/a" [("pa", "")] rfl rfl⟩

/-- An `import` environment with a two-entry mapping where the staged
change only touches the second entry's child subpath: the first entry's
translated patch is empty while the second entry's is not. -/
def splitMappingImportEnv : ImportEnv :=
  { config := some (.obj [("org/child", [("proj/a", "suba"), ("proj/b", "subb")])]),
    logCommits := fun _ =>
      [{ authorName := "Alice", authorEmail := "alice@example.com", message := "change" }],
    diff := fun args => if args = ["suba"] then "" else "patch-b",
    applyOk := fun _ _ => true,
    globalUser := "Op <op@example.com>" }

/-- C3 counterexample: with two mapping entries whose first translated
patch is empty and whose second is not, `import` hits the `return` at
USync.js line 183 and ends successfully without applying the second
entry and without the commit and push steps — refuting that the
remaining mapping entries and the subsequent commit/push steps still
execute. -/
theorem import_empty_entry_counterexample :
    (importRun splitMappingImportEnv "org/hub" childImportOpts).result = .ok () ∧
    (importRun splitMappingImportEnv "org/hub" childImportOpts).trace.commit = none ∧
    (importRun splitMappingImportEnv "org/hub" childImportOpts).trace.pushedBranch = false ∧
    splitMappingImportEnv.diff (importEntryDiffArgs "subb") ≠ "" :=
  ⟨rfl, rfl, rfl, by decide⟩

/-- C3 amended: a mapping entry whose translated patch is empty never
causes the operation to fail; in `land`'s apply phase it ends that
repo's apply loop successfully (skipping that repo's remaining entries)
and the phase continues with the remaining repos, while in `import` it
makes the whole call return successfully at that point, skipping the
remaining entries and the commit/push steps. -/
theorem empty_patch_entry_no_failure_amended :
    (∀ (env : LandEnv) (repoName parentPath childPath : String)
        (rest : List (String × String)),
      env.diff (landEntryDiffArgs parentPath) = "" →
      landApplyRepo env repoName ((parentPath, childPath) :: rest) = .ok ()) ∧
    (∀ (env : LandEnv) (repoName : String) (mapping : List (String × String))
        (rest : List (String × List (String × String))),
      landApplyRepo env repoName mapping = .ok () →
      landApplyPhase env ((repoName, mapping) :: rest) = landApplyPhase env rest) ∧
    (∀ (env : ImportEnv) (parent : String) (opts : ImportOpts)
        (mapping : List (String × String)),
      importMapping (normalizeConfig env.config) opts.baseRepoName = .ok mapping →
      env.logCommits (importConfigSubpaths mapping) ≠ [] →
      importApplyLoop env mapping = .earlyReturn →
      (importRun env parent opts).result = .ok () ∧
      (importRun env parent opts).trace.commit = none ∧
      (importRun env parent opts).trace.pushedBranch = false) := by
  refine ⟨?_, ?_, ?_⟩
  · intro env repoName parentPath childPath rest hd
    unfold landApplyRepo
    simp [hd]
  · intro env repoName mapping rest hok
    by_cases hm : mapping = []
    · subst hm
      rfl
    · conv_lhs => rw [landApplyPhase]
      rw [if_neg hm, hok]
  · intro env parent opts mapping hmap hne hloop
    have hrev : (env.logCommits (importConfigSubpaths mapping)).reverse ≠ [] := by
      simp [hne]
    obtain ⟨c, cs, hc⟩ := List.exists_cons_of_ne_nil hrev
    unfold importRun
    simp [hmap, hc, hloop]

/-- A `land` environment whose staged diff is empty for every path. -/
def emptyDiffLandEnv : LandEnv :=
  { config := some (.obj [("org/a", [("pa", "")])]), fetchHeadOk := true,
    logCommits := fun _ => [], diff := fun _ => "", applyOk := fun _ _ _ => true,
    workdirClean := fun _ => true, pushOk := fun _ => true,
    fallbackPushOk := fun _ => true, commitSha := fun _ => "",
    globalUser := "Op <op@example.com>" }

theorem empty_patch_entry_no_failure_amended_witness :
    landApplyRepo emptyDiffLandEnv "org/a" [("pa", "x")] = .ok () ∧
    landApplyPhase emptyDiffLandEnv [("org/a", [("pa", "x")])] =
      landApplyPhase emptyDiffLandEnv [] ∧
    ((importRun splitMappingImportEnv "org/hub" childImportOpts).result = .ok () ∧
     (importRun splitMappingImportEnv "org/hub" childImportOpts).trace.commit = none ∧
     (importRun splitMappingImportEnv "org/hub" childImportOpts).trace.pushedBranch = false) :=
  ⟨empty_patch_entry_no_failure_amended.1 emptyDiffLandEnv "org/a" "pa" "x" [] rfl,
   empty_patch_entry_no_failure_amended.2.1 emptyDiffLandEnv "org/a" [("pa", "x")] []
     (by decide),
   empty_patch_entry_no_failure_amended.2.2 splitMappingImportEnv "org/hub" childImportOpts
     [("proj/a", "suba"), ("proj/b", "subb")] (by decide) (by decide) (by decide)⟩

/-- The earliest unique commit of a branch, authored by Alice. -/
def cAlice : Commit :=
  { authorName := "Alice", authorEmail := "alice@example.com", message := "start feature" }

/-- The newest unique commit of the same branch, authored by Bob. -/
def cBob : Commit :=
  { authorName := "Bob", authorEmail := "bob@example.com", message := "finish feature" }

/-- An `import` environment whose head branch carries two unique commits
with distinct authors: Alice's (earliest), then Bob's (newest). -/
def twoAuthorImportEnv : ImportEnv :=
  { config := some (.obj [("org/child", [("proj", "")])]),
    logCommits := fun _ => [cAlice, cBob],
    diff := fun _ => "patch",
    applyOk := fun _ _ => true,
    globalUser := "Op <op@example.com>" }

/-- C4 (code bug): the engine's comment says it uses the author of the
first commit in the branch as the squashed commit author, and the spec
says the earliest commit's author — but `git log` prints newest-first, so
`commits[0].author` is the NEWEST unique commit's author.  With Alice
authoring the earliest commit and Bob the newest, the squash commit made
by `import` is attributed to Bob, not Alice. -/
theorem import_squash_author_newest_not_earliest :
    ((twoAuthorImportEnv.logCommits (importConfigSubpaths [("proj", "")])).head?).map
      Commit.author = some "Alice <alice@example.com>" ∧
    ((importRun twoAuthorImportEnv "org/hub" childImportOpts).trace.commit).map
      Prod.fst = some "Bob <bob@example.com>" ∧
    ("Bob <bob@example.com>" : String) ≠ "Alice <alice@example.com>" :=
  ⟨by decide, by decide, by decide⟩

/-- A fork-mode `land` environment whose prepare-phase fetch of the head
branch fails. -/
def fetchFailLandEnv : LandEnv :=
  { config := some (.obj [("org/a", [("pa", "")])]), fetchHeadOk := false,
    logCommits := fun _ => [cAlice], diff := fun _ => "patch",
    applyOk := fun _ _ _ => true, workdirClean := fun _ => false,
    pushOk := fun _ => true, fallbackPushOk := fun _ => true,
    commitSha := fun _ => "abc123", globalUser := "Op <op@example.com>" }

/-- Fork-mode `land` options (the head repo differs from the hub). -/
def forkLandOpts : LandOpts :=
  { commitMessages := { generic := "Land the change", perRepo := [] },
    fallbackBranch := "usync-fallback", headBranch := "feature",
    headRepoName := some "other/fork" }

/-- C7 counterexample: the prepare block of `land` (refresh, fork-remote
addition, head-branch fetch) runs before the `try`/`finally`, so when the
head-branch fetch fails in fork mode, the temporary fork remote has been
added but is never removed — the call fails with the remote still in
place. -/
theorem land_prepare_fetch_leaks_fork_remote :
    (land fetchFailLandEnv "org/hub" forkLandOpts).trace.forkRemoteAdded = true ∧
    (land fetchFailLandEnv "org/hub" forkLandOpts).trace.forkRemoteRemoved = false ∧
    (land fetchFailLandEnv "org/hub" forkLandOpts).result =
      .error (.gitError "failed to fetch head branch") :=
  ⟨rfl, rfl, rfl⟩

/-- C7 amended: whenever a fork-mode `land` call gets past the
prepare-phase fetch of the head branch (so the `try` block is entered),
the temporary fork remote is removed before the call completes,
regardless of whether the land succeeded or failed at any later step; a
failure of the prepare-phase fetch itself, however, happens after the
remote is added and before the `try`, and leaks the remote. -/
theorem land_fork_remote_removed_amended (env : LandEnv) (parent : String)
    (opts : LandOpts) (hFork : landIsFork parent opts = true)
    (hfetch : env.fetchHeadOk = true) :
    (land env parent opts).trace.forkRemoteAdded = true ∧
    (land env parent opts).trace.forkRemoteRemoved = true := by
  unfold land
  rw [hfetch]
  simp only [if_true, hFork]
  constructor <;> (repeat' split) <;> rfl

/-- A fork-mode `land` environment whose prepare-phase fetch succeeds. -/
def forkLandEnv : LandEnv :=
  { config := some (.obj [("org/a", [("pa", "")])]), fetchHeadOk := true,
    logCommits := fun _ => [cAlice], diff := fun _ => "patch",
    applyOk := fun _ _ _ => true, workdirClean := fun _ => false,
    pushOk := fun _ => true, fallbackPushOk := fun _ => true,
    commitSha := fun _ => "abc123", globalUser := "Op <op@example.com>" }

theorem land_fork_remote_removed_amended_witness :
    (land forkLandEnv "org/hub" forkLandOpts).trace.forkRemoteAdded = true ∧
    (land forkLandEnv "org/hub" forkLandOpts).trace.forkRemoteRemoved = true :=
  land_fork_remote_removed_amended forkLandEnv "org/hub" forkLandOpts (by decide) rfl

/-- A `land` environment over two mapped repos where `git apply` fails
for `org/b` during the apply-all phase. -/
def applyFailLandEnv : LandEnv :=
  { config := some (.obj [("org/a", [("pa", "")]), ("org/b", [("pb", "")])]),
    fetchHeadOk := true,
    logCommits := fun _ => [cAlice], diff := fun _ => "patch",
    applyOk := fun r _ _ => r != "org/b", workdirClean := fun _ => false,
    pushOk := fun _ => true, fallbackPushOk := fun _ => true,
    commitSha := fun _ => "abc123", globalUser := "Op <op@example.com>" }

/-- C1: if applying the translated patch fails for any one repo during
`land`'s apply-all phase, the whole land aborts with an error before the
commit-and-push phase begins: no repository (the hub included) receives
a commit, no push to the default branch happens, and no fallback branch
is pushed. -/
theorem land_apply_failure_aborts (env : LandEnv) (parent : String) (opts : LandOpts)
    (es : List (String × List (String × String))) (e : JsError)
    (hes : landMappingEntries (normalizeConfig env.config) = .ok es)
    (happly : landApplyPhase env es = .error e) :
    (land env parent opts).trace.commits = [] ∧
    (land env parent opts).trace.pushedMaster = [] ∧
    (land env parent opts).trace.fallbackPushed = [] ∧
    ∃ e2, (land env parent opts).result = .error e2 := by
  unfold land
  cases hfb : env.fetchHeadOk with
  | false => exact ⟨rfl, rfl, rfl, ⟨.gitError "failed to fetch head branch", rfl⟩⟩
  | true =>
    simp only [if_true, hes, happly]
    exact ⟨rfl, rfl, rfl, ⟨e, rfl⟩⟩

theorem land_apply_failure_aborts_witness :
    (land applyFailLandEnv "org/hub" genericLandOpts).trace.commits = [] ∧
    (land applyFailLandEnv "org/hub" genericLandOpts).trace.pushedMaster = [] ∧
    (land applyFailLandEnv "org/hub" genericLandOpts).trace.fallbackPushed = [] ∧
    ∃ e2, (land applyFailLandEnv "org/hub" genericLandOpts).result = .error e2 :=
  land_apply_failure_aborts applyFailLandEnv "org/hub" genericLandOpts
    [("org/a", [("pa", "")]), ("org/b", [("pb", "")])] (.applyError "org/b")
    (by decide) (by decide)

theorem landCommitPhase_of_no_error (env : LandEnv) (msgs : CommitMessages) :
    ∀ entries : List (String × List (String × String)),
      (landCommitPhase env msgs entries).firstError = none →
      (landCommitPhase env msgs entries).landed =
        (entries.filter (fun q => !env.workdirClean q.1 && env.pushOk q.1)).map
          (fun q => (q.1, env.commitSha q.1)) ∧
      (landCommitPhase env msgs entries).failedPush =
        (entries.filter (fun q => !env.workdirClean q.1 && !env.pushOk q.1)).map
          Prod.fst := by
  intro entries
  induction entries with
  | nil => intro _; exact ⟨rfl, rfl⟩
  | cons q rest ih =>
    obtain ⟨r, m⟩ := q
    intro hnone
    cases hw : env.workdirClean r with
    | true =>
      have hrc : landRepoCommit env msgs r m = .ok .skipped := by
        simp [landRepoCommit, hw]
      simp only [landCommitPhase, hrc] at hnone ⊢
      obtain ⟨ih1, ih2⟩ := ih hnone
      exact ⟨by simp [hw, ih1], by simp [hw, ih2]⟩
    | false =>
      cases hl : (env.logCommits (landConfigSubpaths m)).reverse with
      | nil =>
        have hrc : landRepoCommit env msgs r m = .error .typeError := by
          simp [landRepoCommit, hw, hl]
        simp only [landCommitPhase, hrc] at hnone
        simp at hnone
      | cons c cs =>
        cases hp : env.pushOk r with
        | true =>
          have hrc : landRepoCommit env msgs r m = .ok (.pushed (Commit.author c)
              (buildMessage (msgs.forRepo r) (getLogAuthors (c :: cs))
                (Commit.author c) env.globalUser)
              (env.commitSha r)) := by
            simp [landRepoCommit, hw, hl, hp]
          simp only [landCommitPhase, hrc] at hnone ⊢
          obtain ⟨ih1, ih2⟩ := ih hnone
          exact ⟨by simp [hw, hp, ih1], by simp [hw, hp, ih2]⟩
        | false =>
          have hrc : landRepoCommit env msgs r m = .ok (.pushFailed (Commit.author c)
              (buildMessage (msgs.forRepo r) (getLogAuthors (c :: cs))
                (Commit.author c) env.globalUser)) := by
            simp [landRepoCommit, hw, hl, hp]
          simp only [landCommitPhase, hrc] at hnone ⊢
          obtain ⟨ih1, ih2⟩ := ih hnone
          exact ⟨by simp [hw, hp, ih1], by simp [hw, hp, ih2]⟩

/-- C5: for every `land` call that returns successfully, the returned map
contains exactly the repos among the commit-phase entries (the hub
included) whose working copy was dirty (a non-empty change was staged,
so a commit was made) and whose push to the default branch succeeded,
each mapped to the sha of that commit; repos whose working copy was
clean are absent from the map. -/
theorem land_success_map_exact (env : LandEnv) (parent : String) (opts : LandOpts)
    (es : List (String × List (String × String))) (m : List (String × String))
    (hes : landMappingEntries (normalizeConfig env.config) = .ok es)
    (hok : (land env parent opts).result = .ok m) :
    m = ((landCommitEntries parent es).filter
          (fun q => !env.workdirClean q.1 && env.pushOk q.1)).map
          (fun q => (q.1, env.commitSha q.1)) ∧
    ∀ r sha, env.workdirClean r = true → (r, sha) ∉ m := by
  unfold land at hok
  cases hfb : env.fetchHeadOk with
  | false =>
    rw [hfb] at hok
    simp at hok
  | true =>
    rw [hfb] at hok
    simp only [if_true, hes] at hok
    cases ha : landApplyPhase env es with
    | error e =>
      simp only [ha] at hok
      simp at hok
    | ok u =>
      simp only [ha] at hok
      cases hfe : (landCommitPhase env opts.commitMessages
          (landCommitEntries parent es)).firstError with
      | some e =>
        simp only [hfe] at hok
        simp at hok
      | none =>
        simp only [hfe] at hok
        by_cases hfp : (landCommitPhase env opts.commitMessages
            (landCommitEntries parent es)).failedPush = []
        · simp only [hfp, if_true] at hok
          have hm : m = (landCommitPhase env opts.commitMessages
              (landCommitEntries parent es)).landed := by
            have := hok
            simp at this
            exact this.symm
          obtain ⟨h1, _⟩ := landCommitPhase_of_no_error env opts.commitMessages
            (landCommitEntries parent es) hfe
          constructor
          · rw [hm, h1]
          · intro r sha hclean hmem
            rw [hm, h1] at hmem
            simp only [List.mem_map, List.mem_filter] at hmem
            obtain ⟨q, ⟨hqmem, hcond⟩, hq⟩ := hmem
            have hq1 : q.1 = r := congrArg Prod.fst hq
            rw [hq1] at hcond
            simp [hclean] at hcond
        · simp only [if_neg hfp] at hok
          cases hfind : landFallbackError env (landCommitPhase env opts.commitMessages
              (landCommitEntries parent es)).failedPush with
          | some r0 =>
            simp only [hfind] at hok
            simp at hok
          | none =>
            simp only [hfind] at hok
            simp at hok

/-- A fully successful `land` environment: `org/a` receives a change and
pushes, `org/b` has an empty translated patch (clean working copy), and
the hub is dirty from the squash merge. -/
def successLandEnv : LandEnv :=
  { config := some (.obj [("org/a", [("pa", "")]), ("org/b", [("pb", "")])]),
    fetchHeadOk := true,
    logCommits := fun _ => [cAlice],
    diff := fun args => if args = ["pb"] then "" else "patch",
    applyOk := fun _ _ _ => true,
    workdirClean := fun r => r == "org/b",
    pushOk := fun _ => true, fallbackPushOk := fun _ => true,
    commitSha := fun r => r ++ "-sha", globalUser := "Op <op@example.com>" }

theorem land_success_map_exact_witness :
    ([("org/a", "org/a-sha"), ("org/hub", "org/hub-sha")] : List (String × String)) =
      ((landCommitEntries "org/hub" [("org/a", [("pa", "")]), ("org/b", [("pb", "")])]).filter
        (fun q => !successLandEnv.workdirClean q.1 && successLandEnv.pushOk q.1)).map
        (fun q => (q.1, successLandEnv.commitSha q.1)) ∧
    ("org/b", "some-sha") ∉
      ([("org/a", "org/a-sha"), ("org/hub", "org/hub-sha")] : List (String × String)) :=
  ⟨(land_success_map_exact successLandEnv "org/hub" genericLandOpts
      [("org/a", [("pa", "")]), ("org/b", [("pb", "")])]
      [("org/a", "org/a-sha"), ("org/hub", "org/hub-sha")] (by decide) (by decide)).1,
   (land_success_map_exact successLandEnv "org/hub" genericLandOpts
      [("org/a", [("pa", "")]), ("org/b", [("pb", "")])]
      [("org/a", "org/a-sha"), ("org/hub", "org/hub-sha")] (by decide) (by decide)).2
      "org/b" "some-sha" (by decide)⟩

/-- C2: in a `land` whose apply phase succeeded and whose commit phase
raised no error, if at least one repo's push to the default branch
failed, then `land` pushes the configured `fallbackBranch` for each such
repo (carrying the local commit already made), raises the single
aggregate error naming exactly those repos, and does not return a
success map; the commits and successful default-branch pushes of the
other repos are kept, not rolled back. -/
theorem land_push_failure_fallback_aggregate (env : LandEnv) (parent : String)
    (opts : LandOpts) (es : List (String × List (String × String)))
    (hes : landMappingEntries (normalizeConfig env.config) = .ok es)
    (hfetch : env.fetchHeadOk = true)
    (happly : landApplyPhase env es = .ok ())
    (hnoerr : (landCommitPhase env opts.commitMessages
      (landCommitEntries parent es)).firstError = none)
    (hfail : (landCommitPhase env opts.commitMessages
      (landCommitEntries parent es)).failedPush ≠ [])
    (hfb : ∀ r ∈ (landCommitPhase env opts.commitMessages
      (landCommitEntries parent es)).failedPush, env.fallbackPushOk r = true) :
    (land env parent opts).result = .error (.pushFallbackError
      (landCommitPhase env opts.commitMessages
        (landCommitEntries parent es)).failedPush) ∧
    (land env parent opts).trace.fallbackPushed =
      (landCommitPhase env opts.commitMessages
        (landCommitEntries parent es)).failedPush.map
        (fun r => (r, opts.fallbackBranch)) ∧
    (land env parent opts).trace.commits =
      (landCommitPhase env opts.commitMessages (landCommitEntries parent es)).commits ∧
    (land env parent opts).trace.pushedMaster =
      (landCommitPhase env opts.commitMessages (landCommitEntries parent es)).landed ∧
    (landCommitPhase env opts.commitMessages (landCommitEntries parent es)).failedPush =
      ((landCommitEntries parent es).filter
        (fun q => !env.workdirClean q.1 && !env.pushOk q.1)).map Prod.fst := by
  have hfind : landFallbackError env (landCommitPhase env opts.commitMessages
      (landCommitEntries parent es)).failedPush = none := by
    unfold landFallbackError
    rw [List.find?_eq_none]
    intro x hx
    simp [hfb x hx]
  have hpushed : landFallbackPushed env opts (landCommitPhase env opts.commitMessages
      (landCommitEntries parent es)).failedPush =
      (landCommitPhase env opts.commitMessages
        (landCommitEntries parent es)).failedPush.map
        (fun r => (r, opts.fallbackBranch)) := by
    unfold landFallbackPushed
    congr 1
    rw [List.filter_eq_self]
    intro a ha
    simp [hfb a ha]
  refine ⟨?_, ?_, ?_, ?_,
    (landCommitPhase_of_no_error env opts.commitMessages _ hnoerr).2⟩ <;>
  · unfold land
    rw [hfetch]
    simp only [if_true, hes, happly, hnoerr, if_neg hfail, hfind, hpushed]
    try rfl

/-- A `land` environment where every repo is dirty, applies succeed, the
push to the default branch fails for `org/b` only, and fallback pushes
succeed. -/
def pushFailLandEnv : LandEnv :=
  { config := some (.obj [("org/a", [("pa", "")]), ("org/b", [("pb", "")])]),
    fetchHeadOk := true,
    logCommits := fun _ => [cAlice], diff := fun _ => "patch",
    applyOk := fun _ _ _ => true, workdirClean := fun _ => false,
    pushOk := fun r => r != "org/b", fallbackPushOk := fun _ => true,
    commitSha := fun r => r ++ "-sha", globalUser := "Op <op@example.com>" }

theorem land_push_failure_fallback_aggregate_witness :
    (land pushFailLandEnv "org/hub" genericLandOpts).result =
      .error (.pushFallbackError (landCommitPhase pushFailLandEnv
        genericLandOpts.commitMessages (landCommitEntries "org/hub"
          [("org/a", [("pa", "")]), ("org/b", [("pb", "")])])).failedPush) ∧
    (land pushFailLandEnv "org/hub" genericLandOpts).trace.fallbackPushed =
      (landCommitPhase pushFailLandEnv genericLandOpts.commitMessages
        (landCommitEntries "org/hub"
          [("org/a", [("pa", "")]), ("org/b", [("pb", "")])])).failedPush.map
        (fun r => (r, genericLandOpts.fallbackBranch)) ∧
    (landCommitPhase pushFailLandEnv genericLandOpts.commitMessages
      (landCommitEntries "org/hub"
        [("org/a", [("pa", "")]), ("org/b", [("pb", "")])])).failedPush = ["org/b"] :=
  ⟨(land_push_failure_fallback_aggregate pushFailLandEnv "org/hub" genericLandOpts
      [("org/a", [("pa", "")]), ("org/b", [("pb", "")])] (by decide) rfl (by decide)
      (by decide) (by decide) (fun r _ => rfl)).1,
   (land_push_failure_fallback_aggregate pushFailLandEnv "org/hub" genericLandOpts
      [("org/a", [("pa", "")]), ("org/b", [("pb", "")])] (by decide) rfl (by decide)
      (by decide) (by decide) (fun r _ => rfl)).2.1,
   by decide⟩

theorem charListLe_total : ∀ a b : List Char,
    charListLe a b = true ∨ charListLe b a = true := by
  intro a
  induction a with
  | nil => intro b; left; rfl
  | cons x xs ih =>
    intro b
    cases b with
    | nil => right; rfl
    | cons y ys =>
      by_cases hxy : x.toNat = y.toNat
      · rcases ih ys with h | h
        · left; simp [charListLe, hxy, h]
        · right; simp [charListLe, hxy.symm, h]
      · rcases Nat.lt_or_ge x.toNat y.toNat with h | h
        · left; simp [charListLe, hxy, h]
        · have hyx : y.toNat < x.toNat := by omega
          right
          have hne : ¬ y.toNat = x.toNat := fun hh => hxy hh.symm
          simp only [charListLe, if_neg hne]
          exact decide_eq_true hyx

theorem charListLe_trans : ∀ a b c : List Char,
    charListLe a b = true → charListLe b c = true → charListLe a c = true := by
  intro a
  induction a with
  | nil => intro b c _ _; rfl
  | cons x xs ih =>
    intro b c hab hbc
    cases b with
    | nil => simp [charListLe] at hab
    | cons y ys =>
      cases c with
      | nil => simp [charListLe] at hbc
      | cons z zs =>
        simp only [charListLe] at hab hbc ⊢
        by_cases hxy : x.toNat = y.toNat
        · rw [if_pos hxy] at hab
          by_cases hyz : y.toNat = z.toNat
          · rw [if_pos hyz] at hbc
            rw [if_pos (hxy.trans hyz)]
            exact ih ys zs hab hbc
          · rw [if_neg hyz] at hbc
            have hlt : y.toNat < z.toNat := of_decide_eq_true hbc
            rw [if_neg (by omega)]
            exact decide_eq_true (by omega)
        · have hxylt : x.toNat < y.toNat :=
            of_decide_eq_true (by rwa [if_neg hxy] at hab)
          by_cases hyz : y.toNat = z.toNat
          · rw [if_neg (by omega)]
            exact decide_eq_true (by omega)
          · have hyzlt : y.toNat < z.toNat :=
              of_decide_eq_true (by rwa [if_neg hyz] at hbc)
            rw [if_neg (by omega)]
            exact decide_eq_true (by omega)

instance : IsTotal String (fun a b => localeLe a b = true) :=
  ⟨fun a b => charListLe_total a.data b.data⟩

instance : IsTrans String (fun a b => localeLe a b = true) :=
  ⟨fun a b c => charListLe_trans a.data b.data c.data⟩

theorem setAdd_nodup (xs : List String) (x : String) (h : xs.Nodup) :
    (setAdd xs x).Nodup := by
  unfold setAdd
  split
  · exact h
  · next hx => simp [List.nodup_append, h, hx]

theorem foldl_setAdd_nodup (ys : List String) :
    ∀ acc : List String, acc.Nodup → (ys.foldl setAdd acc).Nodup := by
  induction ys with
  | nil => intro acc h; exact h
  | cons y ys ih => intro acc h; exact ih _ (setAdd_nodup acc y h)

theorem collectAuthors_nodup (commits : List Commit) : (collectAuthors commits).Nodup := by
  have haux : ∀ (cs : List Commit) (acc : List String), acc.Nodup →
      (cs.foldl (fun s c => (coAuthorLines c.message).foldl setAdd (setAdd s c.author))
        acc).Nodup := by
    intro cs
    induction cs with
    | nil => intro acc h; exact h
    | cons c cs ih =>
      intro acc h
      exact ih _ (foldl_setAdd_nodup _ _ (setAdd_nodup _ _ h))
  exact haux commits [] List.nodup_nil

theorem getLogAuthors_sorted (commits : List Commit) :
    List.Sorted (fun a b => localeLe a b = true) (getLogAuthors commits) :=
  List.sorted_insertionSort _ _

theorem getLogAuthors_nodup (commits : List Commit) : (getLogAuthors commits).Nodup :=
  ((List.perm_insertionSort _ _).nodup_iff).mpr (collectAuthors_nodup commits)

theorem joinLines_trailer_ne_empty (a : String) (rest : List String) :
    joinLines ((a :: rest).map (fun x => "Co-authored-by: " ++ x)) ≠ "" := by
  have h16 : ("Co-authored-by: " : String).length = 16 := rfl
  cases rest with
  | nil =>
    intro h
    have hlen := congrArg String.length h
    simp [joinLines, String.length_append, h16] at hlen
  | cons b bs =>
    intro h
    have hlen := congrArg String.length h
    simp [joinLines, String.length_append, h16] at hlen

/-- C6: for every commit message built by `import` or `land` (both build
it as `buildMessage base (getLogAuthors logOutput) commitAuthor
globalUser`), the appended `Co-authored-by:` trailers are deduplicated,
sorted by the `"Name <email>"` identity string, never include the chosen
squash-commit author or the operator's own identity, and are separated
from the base message by a blank line; if no trailers remain after the
exclusion, the base message is used unchanged. -/
theorem trailer_construction_properties (commits : List Commit)
    (base commitAuthor globalUser : String) :
    List.Sorted (fun a b => localeLe a b = true)
      (trailerFilter (getLogAuthors commits) commitAuthor globalUser) ∧
    (trailerFilter (getLogAuthors commits) commitAuthor globalUser).Nodup ∧
    commitAuthor ∉ trailerFilter (getLogAuthors commits) commitAuthor globalUser ∧
    globalUser ∉ trailerFilter (getLogAuthors commits) commitAuthor globalUser ∧
    (trailerFilter (getLogAuthors commits) commitAuthor globalUser = [] →
      buildMessage base (getLogAuthors commits) commitAuthor globalUser = base) ∧
    (trailerFilter (getLogAuthors commits) commitAuthor globalUser ≠ [] →
      buildMessage base (getLogAuthors commits) commitAuthor globalUser =
        base ++ "\n\n" ++ joinLines
          ((trailerFilter (getLogAuthors commits) commitAuthor globalUser).map
            (fun x => "Co-authored-by: " ++ x))) := by
  refine ⟨?_, ?_, ?_, ?_, ?_, ?_⟩
  · exact (getLogAuthors_sorted commits).filter _
  · exact (getLogAuthors_nodup commits).filter _
  · intro hmem
    rw [trailerFilter, List.mem_filter] at hmem
    simp at hmem
  · intro hmem
    rw [trailerFilter, List.mem_filter] at hmem
    simp at hmem
  · intro hnil
    unfold buildMessage
    rw [hnil]
    rfl
  · intro hne
    obtain ⟨a, rest, hc⟩ := List.exists_cons_of_ne_nil hne
    unfold buildMessage
    rw [hc, if_neg (joinLines_trailer_ne_empty a rest)]

/-- A commit whose message carries a `Co-authored-by:` trailer for Dave. -/
def cCarol : Commit :=
  { authorName := "Carol", authorEmail := "carol@example.com",
    message := "tweak\n\nCo-authored-by: Dave <dave@example.com>" }

theorem trailer_construction_properties_witness :
    buildMessage "Import it" (getLogAuthors [cAlice]) "Alice <alice@example.com>"
      "Op <op@example.com>" = "Import it" ∧
    buildMessage "Import it" (getLogAuthors [cAlice, cCarol]) "Carol <carol@example.com>"
      "Op <op@example.com>" =
      "Import it" ++ "\n\n" ++ joinLines
        ((trailerFilter (getLogAuthors [cAlice, cCarol]) "Carol <carol@example.com>"
          "Op <op@example.com>").map (fun x => "Co-authored-by: " ++ x)) ∧
    "Carol <carol@example.com>" ∉
      trailerFilter (getLogAuthors [cAlice, cCarol]) "Carol <carol@example.com>"
        "Op <op@example.com>" :=
  ⟨(trailer_construction_properties [cAlice] "Import it" "Alice <alice@example.com>"
      "Op <op@example.com>").2.2.2.2.1 (by decide),
   (trailer_construction_properties [cAlice, cCarol] "Import it"
      "Carol <carol@example.com>" "Op <op@example.com>").2.2.2.2.2 (by decide),
   (trailer_construction_properties [cAlice, cCarol] "Import it"
      "Carol <carol@example.com>" "Op <op@example.com>").2.2.1⟩
